import Mathlib

set_option autoImplicit false

/-!
# Verification of the problemset overlay core (leetcode-extend)

Shallow embedding of the sort-controller, query-parameter handling, header
mapping, row synchronizer and the global/questions store slices of the
repository, together with proofs and refutations of the specified
properties.

Sources embedded:
* `src/content/pages/problemset/App.tsx` (sort controller, header map,
  row synchronizer wiring)
* `src/content/pages/global/globalSlice.ts` (rank-data store slice)

Parts of the repository that the claims depend on but that are not
available under `src/` (`problemset/utils.ts` with `SORT_KEY` and
`serializationPrams`, `src/utils`'s `debounce`, `questionsSlice.ts`) are
modelled from the spec; each such definition says so in its doc comment.
-/

namespace LCExtend

/-- The enumerated set of sortable columns. The spec fixes "a distinguished
`RANKING` key" plus the host's native sortable columns; `'RANKING'` is the
literal compared against in `App.tsx` line 86. The four native keys mirror
the four sortable columns of the header row (title, acceptance, difficulty,
frequency). -/
inductive OrderBy where
  | FRONTEND_ID
  | AC_RATE
  | DIFFICULTY
  | FREQUENCY
  | RANKING
deriving DecidableEq, Repr, Fintype

/-- The direction-adjacent field of a `SortSpec`. Besides the two canonical
directions the spec allows a synthetic positive-integer sequence token to
stand in this field (spec par. 3, "Sequence Token"). -/
inductive SortOrder where
  | ASCENDING
  | DESCENDING
  | token (n : Nat)
deriving DecidableEq, Repr

/-- Structure `SortSpec` from spec par. 3: one native sort instruction. -/
structure SortSpec where
  orderBy : OrderBy
  orderDirection : SortOrder
deriving DecidableEq, Repr

/-- Structure `CustomParams` from spec par. 3: the overlay's out-of-band sort intent
and optional rank range. -/
structure CustomParams where
  sort : Option SortSpec
  rankRange : Option (Nat × Nat)
deriving DecidableEq, Repr

/-- Structure `QueryParams`: structured decoding of the URL query string. `others` is
the opaque bag of parameters preserved verbatim (pagination, filters);
by spec par. 4.1 it holds only parameters that are not the recognized
`sorting`/`custom` keys. -/
structure QueryParams where
  sorting : Option (List SortSpec)
  custom : Option CustomParams
  others : List (String × String)
deriving DecidableEq, Repr

/-- The query-parameter rewrite performed inside `handleDisable`'s delayed
callback, `src/content/pages/problemset/App.tsx` lines 82-90:
if a `custom` block is present, delete `sorting`; if the custom sort's
`orderBy` differs from `'RANKING'`, set `sorting` to the one-element array
holding that custom sort (verbatim); finally delete `custom` (which also
drops any `rankRange` it carried). Without a `custom` block the params are
left untouched. -/
def disableTransform (p : QueryParams) : QueryParams :=
  match p.custom with
  | none => p
  | some c =>
    let sorting : Option (List SortSpec) :=
      match c.sort with
      | some s => if s.orderBy ≠ OrderBy.RANKING then some [s] else none
      | none => none
    { p with sorting := sorting, custom := none }

/-- A serialized query-string entry's value. Kept structured (rather than
flattened to characters) so that serialization is injective on every field
the host canonicalizes on, as spec par. 4.1 requires. -/
inductive QueryValue where
  | sortingVal (l : List SortSpec)
  | customVal (c : CustomParams)
  | rawVal (s : String)
deriving DecidableEq, Repr

/-- Modelled from the spec: `serializationPrams` lives in
`src/content/pages/problemset/utils.ts`, which is not under `src/`.
Spec par. 6: the query string carries a `sorting` parameter when native
sort instructions are present, the custom block under a single opaque
`custom` key when present, and every opaque parameter verbatim. -/
def serializationPrams (p : QueryParams) : List (String × QueryValue) :=
  (match p.sorting with
    | some l => [("sorting", QueryValue.sortingVal l)]
    | none => []) ++
  (match p.custom with
    | some c => [("custom", QueryValue.customVal c)]
    | none => []) ++
  p.others.map (fun kv => (kv.1, QueryValue.rawVal kv.2))

/-- A DOM bounding rectangle, as far as `handleDisable` reads it
(`getBoundingClientRect().right/.bottom`). -/
structure Rect where
  right : Int
  bottom : Int
deriving DecidableEq, Repr

/-- The `Pos` stored by `setPos`: offsets from the right/bottom window
edges (`App.tsx` lines 75-78). -/
structure Pos where
  right : Int
  bottom : Int
deriving DecidableEq, Repr

/-- The settle delay of the delayed disable navigation
(`setTimeout(..., 500)`, `App.tsx` line 93). -/
def settleDelay : Nat := 500

/-- Abstract state of the `App` component of
`src/content/pages/problemset/App.tsx` together with its observable
environment. `url` is the current location's query parameters (what
`parseParams()` would return at that moment), `pending` the fire times of
timeouts scheduled by `handleDisable` and not yet fired (in scheduling
order), `navigations` the log of calls made to the navigation primitive
`routerTo`, `rankDataFetches`/`questionFetches` count dispatches of
`fetchProblemRankData`/`fetchAllQuestions`, and `displayBlock` records
whether the overlay root is visible (`root.style.display`). -/
structure AppState where
  enable : Bool
  displayBlock : Bool
  url : QueryParams
  pending : List Nat
  navigations : List QueryParams
  pos : Option Pos
  rankDataFetches : Nat
  questionFetches : Nat
deriving DecidableEq, Repr

/-- The `useEffect` at `App.tsx` lines 99-108, which runs after every
change of `enable`: when enabled, dispatch `fetchProblemRankData()` and
`fetchAllQuestions()` and show the overlay root; when disabled, hide the
overlay root. It touches neither the URL, nor the navigation log, nor the
pending timeouts. -/
def enableEffect (s : AppState) : AppState :=
  if s.enable then
    { s with
      rankDataFetches := s.rankDataFetches + 1
      questionFetches := s.questionFetches + 1
      displayBlock := true }
  else
    { s with displayBlock := false }

/-- Handler `handleEnable` (`App.tsx` lines 95-97): dispatch `enableProblemRating()`,
i.e. set the enable flag. Nothing else happens synchronously. -/
def handleEnable (s : AppState) : AppState :=
  { s with enable := true }

/-- The full Activate transition: `handleEnable` followed by the React
re-render's `enableEffect`. -/
def activate (s : AppState) : AppState :=
  enableEffect (handleEnable s)

/-- The error raised by `popperRef.current!.getBoundingClientRect()`
(`App.tsx` line 74) when `popperRef.current` is `null`: the TypeScript
non-null assertion does nothing at runtime, so the member access throws. -/
def popperNullError : String :=
  "TypeError: popperRef.current is null"

/-- The body of `handleDisable` (`App.tsx` lines 73-94) when the popper
rectangle was read successfully: store the captured position, dispatch
`disableProblemRating()` (clearing the enable flag), and schedule the
delayed navigation `settleDelay` ms in the future. The query rewrite and
the `routerTo` call happen only when that timeout later fires. -/
def handleDisableRun (winW winH : Int) (r : Rect) (now : Nat)
    (s : AppState) : AppState :=
  { s with
    pos := some ⟨winW - r.right, winH - r.bottom⟩
    enable := false
    pending := s.pending ++ [now + settleDelay] }

/-- Handler `handleDisable` (`App.tsx` lines 73-94). Its first statement reads
`popperRef.current!.getBoundingClientRect()`; if the control is already
unmounted (`popperRef.current` is `null`) this throws and nothing else of
the handler runs. Otherwise the handler body `handleDisableRun` executes. -/
def handleDisable (winW winH : Int) (rect : Option Rect) (now : Nat)
    (s : AppState) : Except String AppState :=
  match rect with
  | none => Except.error popperNullError
  | some r => Except.ok (handleDisableRun winW winH r now s)

/-- Firing the earliest still-pending disable timeout (the callback at
`App.tsx` lines 80-93): re-parse the current location's parameters, apply
the disable rewrite, and call `routerTo` with the result (which changes
the location). With no pending timeout nothing happens. Nothing in
`App.tsx` ever cancels a scheduled timeout, so every `pending` entry
eventually fires. -/
def fireTimeout (s : AppState) : AppState :=
  match s.pending with
  | [] => s
  | _ :: rest =>
    let u := disableTransform s.url
    { s with
      pending := rest
      url := u
      navigations := s.navigations ++ [u] }

/-- The Deactivate transition as far as React runs it synchronously after
the click: the handler followed by the re-render's effect (the overlay
root is hidden immediately; the navigation stays pending). -/
def deactivate (winW winH : Int) (rect : Option Rect) (now : Nat)
    (s : AppState) : Except String AppState :=
  (handleDisable winW winH rect now s).map enableEffect

/-- One entry of `SORT_KEY`: the sort key a header column position maps
to. (The source record also carries presentation fields; only `key` is
read by `otherRoots`.) -/
structure SortKeyEntry where
  key : OrderBy
deriving DecidableEq, Repr

/-- Modelled from the spec: `SORT_KEY` lives in
`src/content/pages/problemset/utils.ts`, which is not under `src/`.
Spec par. 4.4 and par. 8: the enumerated sortable keys in their fixed
declared order, one per sortable header column (title, acceptance,
difficulty, frequency); the distinguished `RANKING` key is not a host
header column and has no entry. -/
def SORT_KEY : List SortKeyEntry :=
  [⟨OrderBy.FRONTEND_ID⟩, ⟨OrderBy.AC_RATE⟩,
   ⟨OrderBy.DIFFICULTY⟩, ⟨OrderBy.FREQUENCY⟩]

/-- A header-row cell as far as `otherRoots` inspects it: its text content
and whether the node is an `HTMLElement`. -/
structure HCell where
  textContent : String
  isHTMLElement : Bool
deriving DecidableEq, Repr

/-- The fixed exclusion test of `App.tsx` line 160:
`new Set(['状态', '企业']).has(el.textContent)` — the status (状态) and
company (企业) columns are not sortable. -/
def headerExcluded (t : String) : Bool :=
  t = "状态" || t = "企业"

/-- The filter of `App.tsx` lines 158-161: keep cells with non-empty text
content whose text is not in the exclusion set. -/
def headerFilter (cells : List HCell) : List HCell :=
  cells.filter (fun el => el.textContent != "" && !headerExcluded el.textContent)

/-- The loop of `App.tsx` lines 162-168: walk the filtered cells and the
`SORT_KEY` list in lockstep; each `HTMLElement` cell is assigned to the
key at its position. Positions past either list's end assign nothing
(`children[i]` is `undefined` past the end, and `undefined` fails the
`instanceof HTMLElement` guard). -/
def buildRoots : List SortKeyEntry → List HCell → (OrderBy → Option HCell) →
    OrderBy → Option HCell
  | [], _, m => m
  | _ :: _, [], m => m
  | e :: ks, c :: cs, m =>
    buildRoots ks cs
      (if c.isHTMLElement then (fun k => if k = e.key then some c else m k) else m)

/-- The map `otherRoots` (`App.tsx` lines 154-171): the header map from sort key
to header cell, built from the title row's child cells. -/
def otherRoots (titleRow : List HCell) : OrderBy → Option HCell :=
  buildRoots SORT_KEY (headerFilter titleRow) (fun _ => none)

/-- Modelled from the spec (and the call in `App.tsx` line 119):
`debounce` lives in `src/utils`, which is not under `src/`. Trailing-edge
debounce: a call while no timer runs schedules execution `w` ms later; a
call while a timer runs cancels it and reschedules. `debounceGo w t later`
is the list of execution times given a last call at `t` and the later
call times `later`. -/
def debounceGo (w : Nat) (t : Nat) : List Nat → List Nat
  | [] => [t + w]
  | s :: rest =>
    if s < t + w then debounceGo w s rest
    else (t + w) :: debounceGo w s rest

/-- Execution times of a `w`-debounced function invoked at the given
(nondecreasing) call times. -/
def debounceFires (w : Nat) : List Nat → List Nat
  | [] => []
  | t :: rest => debounceGo w t rest

/-- A child node of the row-group container, as far as the re-scan
inspects it: whether it is an `HTMLDivElement`. -/
structure DomNode where
  isHTMLDivElement : Bool
deriving DecidableEq, Repr

/-- The body of `handleRowChange` (`App.tsx` lines 119-125): re-scan the
row-group's children at execution time, keep only `HTMLDivElement`s, and
publish that list (`setRows`). -/
def scanRows (children : List DomNode) : List DomNode :=
  children.filter (fun el => el.isHTMLDivElement)

/-- The debounce window of `handleRowChange` (`App.tsx` line 125). -/
def debounceWindow : Nat := 500

/-- The row lists published by the synchronizer: `handleRowChange` is the
`debounceWindow`-debounced re-scan, invoked at the given call times
(mutation notifications); `dom t` is the row-group's child list at time
`t`, read at each execution time. -/
def republishes (dom : Nat → List DomNode) (calls : List Nat) :
    List (List DomNode) :=
  (debounceFires debounceWindow calls).map (fun t => scanRows (dom t))

/-- Opaque payload of `queryGlobalData` (`GlobalData` is defined in
`@/utils`, outside this core; the slice only stores it verbatim). -/
structure GlobalData where
  payload : Nat
deriving DecidableEq, Repr

/-- Opaque payload of `getProblemsetPageProps` (stored verbatim by the
slice). -/
structure ProblemsetPageProps where
  payload : Nat
deriving DecidableEq, Repr

/-- One rank record. The slice reads only `TitleSlug`; the remaining
fields are opaque to this core and collapsed into `payload`. -/
structure ProblemRankData where
  TitleSlug : String
  payload : Nat
deriving DecidableEq, Repr

/-- State of `globalDataSlice` (`globalSlice.ts` lines 41-47).
`ProblemRankData` embeds the JS object `{ [key: string]: ProblemRankData }`
as an association list: string keys in insertion order, each key held at
most once. -/
structure GlobalState where
  globalData : Option GlobalData
  problemsetPageProps : Option ProblemsetPageProps
  ProblemRankData : List (String × ProblemRankData)
deriving DecidableEq, Repr

/-- The `initialState` of the slice (`globalSlice.ts` line 43):
`{ ProblemRankData: {} }`. -/
def initialGlobalState : GlobalState :=
  { globalData := none, problemsetPageProps := none, ProblemRankData := [] }

/-- The JS object assignment `state.ProblemRankData[rank.TitleSlug] = rank`
(`globalSlice.ts` line 59): overwrite in place when the key is already
present, append otherwise. -/
def upsertRank (m : List (String × ProblemRankData)) (r : ProblemRankData) :
    List (String × ProblemRankData) :=
  match m with
  | [] => [(r.TitleSlug, r)]
  | e :: rest =>
    if e.1 == r.TitleSlug then (r.TitleSlug, r) :: rest
    else e :: upsertRank rest r

/-- The `fetchProblemRankData.fulfilled` case body (`globalSlice.ts`
lines 57-61): upsert every record of the payload, in order. -/
def applyRankPayload (m : List (String × ProblemRankData))
    (payload : List ProblemRankData) : List (String × ProblemRankData) :=
  payload.foldl upsertRank m

/-- The actions reaching `globalDataSlice`. `createAsyncThunk` dispatches
a `fulfilled` action on success and a `rejected` action (carrying the
serialized error) on failure; the thunk never rethrows into the caller. -/
inductive GlobalAction where
  | fetchGlobalDataFulfilled (g : GlobalData)
  | fetchProblemsetPagePropsFulfilled (p : ProblemsetPageProps)
  | fetchProblemRankDataFulfilled (payload : List ProblemRankData)
  | fetchGlobalDataRejected (e : String)
  | fetchProblemsetPagePropsRejected (e : String)
  | fetchProblemRankDataRejected (e : String)
deriving DecidableEq, Repr

/-- The reducer of `globalDataSlice` (`globalSlice.ts` lines 49-62): the
`extraReducers` builder registers handlers for exactly the three
`fulfilled` actions; every other action (in particular every `rejected`
action) falls through to the Redux default and returns the state
unchanged. The reducer is a total function: no action makes it throw. -/
def globalReducer (s : GlobalState) (a : GlobalAction) : GlobalState :=
  match a with
  | GlobalAction.fetchGlobalDataFulfilled g => { s with globalData := some g }
  | GlobalAction.fetchProblemsetPagePropsFulfilled p =>
    { s with problemsetPageProps := some p }
  | GlobalAction.fetchProblemRankDataFulfilled payload =>
    { s with ProblemRankData := applyRankPayload s.ProblemRankData payload }
  | _ => s

/-- Key lookup in the embedded JS object: the value of the first (and,
from the empty object on, only) entry carrying the key. -/
def lookupRank (m : List (String × ProblemRankData)) (k : String) :
    Option ProblemRankData :=
  (m.find? (fun e => e.1 == k)).map (fun e => e.2)

/-- Selector `selectProblemRankDataByTitleSlug` (`globalSlice.ts` lines 75-78):
object lookup by title slug, `undefined` (here `none`) when absent. -/
def selectProblemRankDataByTitleSlug (s : GlobalState) (titleSlug : String) :
    Option ProblemRankData :=
  lookupRank s.ProblemRankData titleSlug

/-- Opaque payload of one question record (`questionsSlice` stores the
fetched list verbatim; its content is outside this core). -/
structure Question where
  payload : Nat
deriving DecidableEq, Repr

/-- The actions reaching the questions slice. -/
inductive QuestionsAction where
  | fetchAllQuestionsFulfilled (qs : List Question)
  | fetchAllQuestionsRejected (e : String)
deriving DecidableEq, Repr

/-- Modelled from the spec: `questionsSlice.ts`
(`src/content/pages/problemset/questionsSlice.ts`) is not under `src/`.
Spec par. 6: the question-list fetch is asynchronous, may fail, and a
failure must not crash the overlay; like `globalDataSlice`, the slice
stores the fulfilled payload and leaves the state unchanged on a
rejected action. -/
def questionsReducer (s : List Question) (a : QuestionsAction) :
    List Question :=
  match a with
  | QuestionsAction.fetchAllQuestionsFulfilled qs => qs
  | QuestionsAction.fetchAllQuestionsRejected _ => s

/-- The slugs currently held by the rank-data store, in insertion order. -/
def rankKeys (m : List (String × ProblemRankData)) : List String :=
  m.map (fun e => e.1)

/-- The store state after a sequence of fulfilled rank-data fetches,
applied to the slice's initial state. -/
def stateAfterFetches (ps : List (List ProblemRankData)) : GlobalState :=
  ps.foldl
    (fun s p => globalReducer s (GlobalAction.fetchProblemRankDataFulfilled p))
    initialGlobalState

/-- Concrete query parameters with rank ordering active: the custom sort
carries the `RANKING` key, no native `sorting` is present (spec par. 3
invariant), one opaque pagination parameter rides along. -/
def exRankUrl : QueryParams :=
  { sorting := none
    custom := some { sort := some ⟨OrderBy.RANKING, SortOrder.ASCENDING⟩
                     rankRange := none }
    others := [("page", "2")] }

/-- Concrete enabled app state sitting at `exRankUrl`, nothing pending. -/
def exEnabledState : AppState :=
  { enable := true
    displayBlock := true
    url := exRankUrl
    pending := []
    navigations := []
    pos := none
    rankDataFetches := 1
    questionFetches := 1 }

/-- Concrete rectangle for the captured control position. -/
def exRect : Rect := ⟨10, 20⟩

/-- Concrete query parameters in which the custom sort encodes a
non-`RANKING` column with a descending direction, while the native
`sorting` carries the same column with a sequence token in the
direction-adjacent field (spec par. 3 invariant). -/
def exDescUrl : QueryParams :=
  { sorting := some [⟨OrderBy.AC_RATE, SortOrder.token 7⟩]
    custom := some { sort := some ⟨OrderBy.AC_RATE, SortOrder.DESCENDING⟩
                     rankRange := none }
    others := [] }

/-- Concrete disabled app state (the overlay hidden, feature off). -/
def exDisabledState : AppState :=
  { enable := false
    displayBlock := false
    url := exRankUrl
    pending := []
    navigations := []
    pos := none
    rankDataFetches := 0
    questionFetches := 0 }

/-- The header cells of the C5 scenario row, in document order. -/
def statusCell : HCell := ⟨"状态", true⟩

/-- Title header cell. -/
def titleCell : HCell := ⟨"题目", true⟩

/-- Acceptance header cell. -/
def acceptanceCell : HCell := ⟨"通过率", true⟩

/-- Difficulty header cell. -/
def difficultyCell : HCell := ⟨"难度", true⟩

/-- Frequency header cell. -/
def frequencyCell : HCell := ⟨"出现频率", true⟩

/-- Company header cell. -/
def companyCell : HCell := ⟨"企业", true⟩

/-- The header row `[Status, Title, Acceptance, Difficulty, Frequency,
Company]` of the C5 scenario. -/
def scenarioHeaderRow : List HCell :=
  [statusCell, titleCell, acceptanceCell, difficultyCell,
   frequencyCell, companyCell]

/-- Call times, after an initial notification at time 0, of a concrete
burst of 20 row-mutation notifications 100 ms apart. -/
def burstRest : List Nat :=
  [100, 200, 300, 400, 500, 600, 700, 800, 900, 1000, 1100, 1200,
   1300, 1400, 1500, 1600, 1700, 1800, 1900]

/-- A concrete time-indexed row-group child list: two div rows and one
non-div node at every time. -/
def burstDom : Nat → List DomNode :=
  fun _ => [⟨true⟩, ⟨false⟩, ⟨true⟩]

/-!
## Theorems

Helper lemmas first, then for each claim its theorem (and, where needed,
its counterexample and witness).
-/

/-- Whatever the input, the disable rewrite leaves no `custom` block (it
either deletes it or the block was already absent); since `rankRange`
lives only inside `custom`, no `rankRange` survives a disable either. -/
theorem disableTransform_custom_none (p : QueryParams) :
    (disableTransform p).custom = none := by
  unfold disableTransform
  cases hc : p.custom <;> simp [hc]

/-- Parameters without a `custom` block pass through the disable rewrite
unchanged (`App.tsx` line 83's guard). -/
theorem disableTransform_of_custom_none (p : QueryParams)
    (h : p.custom = none) : disableTransform p = p := by
  unfold disableTransform
  rw [h]

/-- The disable rewrite is idempotent on query parameters. -/
theorem disableTransform_idem (p : QueryParams) :
    disableTransform (disableTransform p) = disableTransform p :=
  disableTransform_of_custom_none _ (disableTransform_custom_none p)

/-- When the custom sort encodes a non-`RANKING` column, the disable
rewrite installs exactly that `SortSpec`, verbatim, as the sole native
sort instruction. -/
theorem disableTransform_sorting_of_other (p : QueryParams)
    (c : CustomParams) (s : SortSpec) (hc : p.custom = some c)
    (hs : c.sort = some s) (hr : s.orderBy ≠ OrderBy.RANKING) :
    (disableTransform p).sorting = some [s] := by
  unfold disableTransform
  rw [hc]
  simp [hs, hr]

/-- When the custom sort encodes `RANKING`, the disable rewrite deletes
both `sorting` and `custom`. -/
theorem disableTransform_of_ranking (p : QueryParams)
    (c : CustomParams) (s : SortSpec) (hc : p.custom = some c)
    (hs : c.sort = some s) (hr : s.orderBy = OrderBy.RANKING) :
    disableTransform p = { p with sorting := none, custom := none } := by
  unfold disableTransform
  rw [hc]
  simp [hs, hr]

/-- C2, counterexample: for the query state `exDescUrl` (custom sort
`{AC_RATE, DESCENDING}`), the surviving native `SortSpec` after the
disable rewrite carries the `DESCENDING` direction the custom sort
carried — not the canonical ascending value the claim asserts. -/
theorem disable_keeps_descending_direction_example :
    (disableTransform exDescUrl).sorting =
      some [⟨OrderBy.AC_RATE, SortOrder.DESCENDING⟩] ∧
    SortOrder.DESCENDING ≠ SortOrder.ASCENDING := by
  exact ⟨rfl, by decide⟩

/-- C2, amended: after Deactivate with a non-`RANKING` custom sort, the
surviving native `SortSpec` is the custom sort moved over verbatim —
including whatever direction-adjacent value it carried; the code applies
no canonicalization to ascending (`App.tsx` line 87 copies
`params.custom.sort` unchanged). -/
theorem disable_moves_custom_sort_verbatim (p : QueryParams)
    (c : CustomParams) (s : SortSpec) (hc : p.custom = some c)
    (hs : c.sort = some s) (hr : s.orderBy ≠ OrderBy.RANKING) :
    (disableTransform p).sorting = some [s] ∧
    ((disableTransform p).sorting.map
      (fun l => l.map SortSpec.orderDirection)) = some [s.orderDirection] := by
  have h := disableTransform_sorting_of_other p c s hc hs hr
  exact ⟨h, by rw [h]; rfl⟩

/-- Witness for C2's amended theorem at the concrete state `exDescUrl`. -/
theorem disable_moves_custom_sort_verbatim_witness :
    exDescUrl.custom = some { sort := some ⟨OrderBy.AC_RATE, SortOrder.DESCENDING⟩
                              rankRange := none } ∧
    ((disableTransform exDescUrl).sorting =
      some [⟨OrderBy.AC_RATE, SortOrder.DESCENDING⟩] ∧
    ((disableTransform exDescUrl).sorting.map
      (fun l => l.map SortSpec.orderDirection)) = some [SortOrder.DESCENDING]) :=
  ⟨rfl, disable_moves_custom_sort_verbatim exDescUrl _ _ rfl rfl (by decide)⟩

/-- C7, counterexample: at the concrete enabled state, a Deactivate whose
control rectangle cannot be read does not fall back to a default
position — it fails with the thrown error of the non-null assertion. -/
theorem deactivate_unreadable_position_errors_example :
    deactivate 1000 800 none 0 exEnabledState =
      Except.error popperNullError := rfl

/-- C7, amended: whenever the triggering control's position cannot be
read (`popperRef.current` is `null`), `handleDisable`'s first statement
throws (`popperRef.current!.getBoundingClientRect()`, `App.tsx` line 74):
the Deactivate transition fails with an error, no position fallback
exists, and no delayed navigation is scheduled. -/
theorem deactivate_unreadable_position_always_errors (winW winH : Int)
    (t : Nat) (s : AppState) :
    handleDisable winW winH none t s = Except.error popperNullError ∧
    deactivate winW winH none t s = Except.error popperNullError :=
  ⟨rfl, rfl⟩

/-- C1, counterexample: from the concrete enabled state, two Deactivate
calls (at 0 ms and 100 ms, both before the 500 ms settle delay elapses)
schedule two timeouts; once both fire, the navigation primitive has been
called twice — not once as the claim asserts. -/
theorem double_disable_two_navigations_example :
    ((deactivate 1000 800 (some exRect) 0 exEnabledState).bind
      (deactivate 1000 800 (some exRect) 100)).map
        (fun s2 => (fireTimeout (fireTimeout s2)).navigations.length) =
    Except.ok 2 := rfl

/-- C1, amended: each Deactivate call independently schedules its own
delayed navigation — two calls in succession produce exactly two calls to
the navigation primitive, one per Deactivate; because the disable rewrite
is idempotent, both navigate to the same URL (the one a single Deactivate
would have produced). Nothing deduplicates the second call. -/
theorem double_disable_navigates_once_per_call (winW winH : Int)
    (r1 r2 : Rect) (t1 t2 : Nat) (s : AppState) (hp : s.pending = []) :
    ((deactivate winW winH (some r1) t1 s).bind
      (deactivate winW winH (some r2) t2)).map
        (fun s2 => (fireTimeout (fireTimeout s2)).navigations) =
    Except.ok (s.navigations ++
      [disableTransform s.url, disableTransform s.url]) := by
  simp [deactivate, handleDisable, handleDisableRun, enableEffect,
    Except.bind, Except.map, fireTimeout, hp, disableTransform_idem]

/-- Witness for C1's amended theorem at the concrete enabled state. -/
theorem double_disable_navigates_once_per_call_witness :
    exEnabledState.pending = [] ∧
    ((deactivate 1000 800 (some exRect) 0 exEnabledState).bind
      (deactivate 1000 800 (some exRect) 100)).map
        (fun s2 => (fireTimeout (fireTimeout s2)).navigations) =
    Except.ok (exEnabledState.navigations ++
      [disableTransform exEnabledState.url,
       disableTransform exEnabledState.url]) :=
  ⟨rfl, double_disable_navigates_once_per_call 1000 800 exRect exRect
    0 100 exEnabledState rfl⟩

/-- C3, counterexample: from the concrete enabled state, a Deactivate at
0 ms followed by an Activate at 100 ms (before the 500 ms delay elapses)
does not cancel the pending timeout: when it fires, the navigation
scheduled by the superseded Deactivate is performed (one navigation, not
zero). -/
theorem activate_then_navigation_fires_example :
    (deactivate 1000 800 (some exRect) 0 exEnabledState).map
      (fun s1 => (fireTimeout (activate s1)).navigations.length) =
    Except.ok 1 := rfl

/-- C3, amended: a subsequent Activate before the pending Deactivate's
delay elapses does not cancel the pending navigation — neither
`handleEnable` nor the enable effect touches the scheduled timeout
(no `clearTimeout` exists in `App.tsx`), so the timeout stays pending
through the Activate and, when it fires, the superseded Deactivate's
navigation is performed. -/
theorem activate_leaves_pending_navigation (winW winH : Int) (r : Rect)
    (t : Nat) (s : AppState) (hp : s.pending = []) :
    (deactivate winW winH (some r) t s).map
      (fun s1 => ((activate s1).pending,
        (fireTimeout (activate s1)).navigations)) =
    Except.ok ([t + settleDelay],
      s.navigations ++ [disableTransform s.url]) := by
  simp [deactivate, handleDisable, handleDisableRun, enableEffect,
    activate, handleEnable, Except.map, fireTimeout, hp]

/-- Witness for C3's amended theorem at the concrete enabled state. -/
theorem activate_leaves_pending_navigation_witness :
    exEnabledState.pending = [] ∧
    (deactivate 1000 800 (some exRect) 0 exEnabledState).map
      (fun s1 => ((activate s1).pending,
        (fireTimeout (activate s1)).navigations)) =
    Except.ok ([0 + settleDelay],
      exEnabledState.navigations ++ [disableTransform exEnabledState.url]) :=
  ⟨rfl, activate_leaves_pending_navigation 1000 800 exRect 0
    exEnabledState rfl⟩

/-- C8: Activate (`handleEnable` plus the enable effect, `App.tsx`
lines 95-108) requests rank data and the question list, makes the overlay
root visible, and leaves the URL, the navigation log and the pending
timeouts untouched — activation by itself performs no navigation. -/
theorem activate_fetches_and_keeps_url (s : AppState)
    (h : s.enable = false) :
    (activate s).enable = true ∧
    (activate s).url = s.url ∧
    (activate s).navigations = s.navigations ∧
    (activate s).pending = s.pending ∧
    (activate s).rankDataFetches = s.rankDataFetches + 1 ∧
    (activate s).questionFetches = s.questionFetches + 1 ∧
    (activate s).displayBlock = true := by
  simp [activate, handleEnable, enableEffect]

/-- Witness for C8 at the concrete disabled state. -/
theorem activate_fetches_and_keeps_url_witness :
    exDisabledState.enable = false ∧
    ((activate exDisabledState).enable = true ∧
    (activate exDisabledState).url = exDisabledState.url ∧
    (activate exDisabledState).navigations = exDisabledState.navigations ∧
    (activate exDisabledState).pending = exDisabledState.pending ∧
    (activate exDisabledState).rankDataFetches =
      exDisabledState.rankDataFetches + 1 ∧
    (activate exDisabledState).questionFetches =
      exDisabledState.questionFetches + 1 ∧
    (activate exDisabledState).displayBlock = true) :=
  ⟨rfl, activate_fetches_and_keeps_url exDisabledState rfl⟩

/-- C4: when Deactivate fires while the custom sort encodes `RANKING`,
the serialized URL contains no `custom` parameter and no `sorting`
parameter (assuming, as the codec guarantees, that the opaque bag holds
no parameter under those two recognized keys); and on every disable
whatsoever the `custom` block — and with it any `rankRange` — is gone
from the result. -/
theorem disable_with_ranking_clears_url (p : QueryParams)
    (c : CustomParams) (s : SortSpec) (hc : p.custom = some c)
    (hs : c.sort = some s) (hr : s.orderBy = OrderBy.RANKING)
    (ho : ∀ kv ∈ p.others, kv.1 ≠ "custom" ∧ kv.1 ≠ "sorting") :
    (∀ v, ("custom", v) ∉ serializationPrams (disableTransform p)) ∧
    (∀ v, ("sorting", v) ∉ serializationPrams (disableTransform p)) ∧
    (∀ q : QueryParams, (disableTransform q).custom = none) := by
  have hd := disableTransform_of_ranking p c s hc hs hr
  rw [hd]
  refine ⟨?_, ?_, fun q => disableTransform_custom_none q⟩ <;>
    · intro v hv
      simp only [serializationPrams, List.nil_append, List.mem_map,
        List.mem_append, Prod.mk.injEq] at hv
      obtain ⟨kv, hkv, hk, _⟩ := hv
      first
        | exact (ho kv hkv).1 hk
        | exact (ho kv hkv).2 hk

/-- Witness for C4 at the concrete rank-sorted state `exRankUrl`. -/
theorem disable_with_ranking_clears_url_witness :
    (exRankUrl.custom = some { sort := some ⟨OrderBy.RANKING, SortOrder.ASCENDING⟩
                               rankRange := none } ∧
     ∀ kv ∈ exRankUrl.others, kv.1 ≠ "custom" ∧ kv.1 ≠ "sorting") ∧
    ((∀ v, ("custom", v) ∉ serializationPrams (disableTransform exRankUrl)) ∧
     (∀ v, ("sorting", v) ∉ serializationPrams (disableTransform exRankUrl)) ∧
     (∀ q : QueryParams, (disableTransform q).custom = none)) :=
  ⟨⟨rfl, by decide⟩,
   disable_with_ranking_clears_url exRankUrl _ _ rfl rfl rfl (by decide)⟩

/-- The header loop reads only the first `SORT_KEY.length` filtered
cells: whatever follows the enumerated key count cannot influence the
produced map. -/
theorem buildRoots_take (ks : List SortKeyEntry) :
    ∀ (cs : List HCell) (m : OrderBy → Option HCell) (k : OrderBy),
      buildRoots ks cs m k = buildRoots ks (cs.take ks.length) m k := by
  induction ks with
  | nil => intro cs m k; rfl
  | cons e ks ih =>
    intro cs m k
    cases cs with
    | nil => rfl
    | cons c cs =>
      simp only [buildRoots, List.length_cons, List.take_succ_cons]
      exact ih cs _ k

/-- C5: for the header row `[状态, 题目, 通过率, 难度, 出现频率, 企业]`
(Status, Title, Acceptance, Difficulty, Frequency, Company), the produced
header map omits the Status and Company cells (no key maps to them),
assigns the remaining four cells positionally to the enumerated sortable
keys in their declared order (`RANKING` gets none), and — in general —
ignores every filtered cell beyond the enumerated key count. -/
theorem scenario_header_map :
    (otherRoots scenarioHeaderRow OrderBy.FRONTEND_ID = some titleCell ∧
     otherRoots scenarioHeaderRow OrderBy.AC_RATE = some acceptanceCell ∧
     otherRoots scenarioHeaderRow OrderBy.DIFFICULTY = some difficultyCell ∧
     otherRoots scenarioHeaderRow OrderBy.FREQUENCY = some frequencyCell ∧
     otherRoots scenarioHeaderRow OrderBy.RANKING = none ∧
     ∀ k, otherRoots scenarioHeaderRow k ≠ some statusCell ∧
          otherRoots scenarioHeaderRow k ≠ some companyCell) ∧
    (∀ (cells : List HCell) (k : OrderBy),
      otherRoots cells k =
        buildRoots SORT_KEY ((headerFilter cells).take SORT_KEY.length)
          (fun _ => none) k) :=
  ⟨by decide, fun cells k => buildRoots_take SORT_KEY (headerFilter cells) _ k⟩

/-- A chain of calls each arriving before the running debounce timer
would fire is coalesced into a single execution, scheduled one window
after the last call. -/
theorem debounceGo_burst (w : Nat) :
    ∀ (rest : List Nat) (t : Nat),
      List.Chain (fun a b => b < a + w) t rest →
      debounceGo w t rest = [rest.getLastD t + w] := by
  intro rest
  induction rest with
  | nil => intro t _; rfl
  | cons s rest ih =>
    intro t hc
    cases hc with
    | cons hs hrest =>
      simp only [debounceGo, if_pos hs, List.getLastD_cons]
      exact ih s hrest

/-- C6: a burst of 20 row-mutation notifications, each within 100 ms of
the previous one, produces exactly one republish, which happens one
debounce window after the last notification and contains the row-group's
element children as re-scanned at that moment. -/
theorem burst_single_republish (dom : Nat → List DomNode) (t : Nat)
    (rest : List Nat) (hlen : (t :: rest).length = 20)
    (hburst : List.Chain (fun a b => a < b ∧ b ≤ a + 100) t rest) :
    republishes dom (t :: rest) =
      [scanRows (dom (rest.getLastD t + debounceWindow))] := by
  have hc : List.Chain (fun a b => b < a + debounceWindow) t rest :=
    List.Chain.imp (fun a b hab => by unfold debounceWindow; omega) hburst
  simp only [republishes, debounceFires]
  rw [debounceGo_burst debounceWindow rest t hc]
  rfl

/-- Witness for C6 at a concrete burst (calls every 100 ms, 20 in all)
over a concrete row-group. -/
theorem burst_single_republish_witness :
    ((0 :: burstRest).length = 20 ∧
     List.Chain (fun a b => a < b ∧ b ≤ a + 100) 0 burstRest) ∧
    republishes burstDom (0 :: burstRest) =
      [scanRows (burstDom (burstRest.getLastD 0 + debounceWindow))] :=
  ⟨⟨by decide, by unfold burstRest; simp [List.chain_cons]⟩,
   burst_single_republish burstDom 0 burstRest (by decide)
     (by unfold burstRest; simp [List.chain_cons])⟩

/-- C9: a failed fetch reaches the store as a `rejected` action; neither
slice registers a handler for rejections, so the state — in particular
the stored rank-data map — is unchanged, and the reducers are total
functions, so no error propagates out of the store layer. -/
theorem rejected_fetch_leaves_state_unchanged (s : GlobalState) (e : String)
    (qs : List Question) :
    globalReducer s (GlobalAction.fetchProblemRankDataRejected e) = s ∧
    (globalReducer s (GlobalAction.fetchProblemRankDataRejected e)).ProblemRankData
      = s.ProblemRankData ∧
    questionsReducer qs (QuestionsAction.fetchAllQuestionsRejected e) = qs :=
  ⟨rfl, rfl, rfl⟩

/-- An upsert resolves lookups at the written key to the new record and
leaves every other key's lookup unchanged. -/
theorem lookupRank_upsertRank (r : ProblemRankData) (k : String) :
    ∀ m, lookupRank (upsertRank m r) k =
      if r.TitleSlug = k then some r else lookupRank m k := by
  intro m
  induction m with
  | nil =>
    by_cases h : r.TitleSlug = k <;>
      simp [upsertRank, lookupRank, List.find?_cons, h]
  | cons e m ih =>
    by_cases he : e.1 = r.TitleSlug
    · by_cases hk : r.TitleSlug = k <;>
        simp [upsertRank, lookupRank, List.find?_cons, he, hk]
    · by_cases hek : e.1 = k
      · have hsk : ¬r.TitleSlug = k := fun hh => he (hek.trans hh.symm)
        have hks : ¬k = r.TitleSlug := fun hh => hsk hh.symm
        simp [upsertRank, lookupRank, List.find?_cons, he, hek, hsk, hks]
      · simpa [upsertRank, lookupRank, List.find?_cons, he, hek] using ih

/-- The last element of a nonempty list, phrased through `Option.or`. -/
theorem getLast?_cons_or {α : Type} (a : α) (l : List α) :
    (a :: l).getLast? = (l.getLast?).or (some a) := by
  induction l generalizing a with
  | nil => rfl
  | cons b l ih =>
    rw [List.getLast?_cons_cons, ih b, Option.or_assoc, Option.or_some]

/-- The last element of an append, phrased through `Option.or`. -/
theorem getLast?_append_or {α : Type} (l m : List α) :
    (l ++ m).getLast? = (m.getLast?).or (l.getLast?) := by
  induction l with
  | nil => simp [Option.or_none]
  | cons a l ih =>
    rw [List.cons_append, getLast?_cons_or, ih, getLast?_cons_or,
      Option.or_assoc]

/-- A list has no last element exactly when it is empty. -/
theorem getLast?_eq_none_iff {α : Type} (l : List α) :
    l.getLast? = none ↔ l = [] := by
  cases l with
  | nil => simp
  | cons a l => simp [getLast?_cons_or, Option.or_eq_none]

/-- Applying one fulfilled payload: the lookup afterwards returns the
last record of the payload carrying the key, falling back to the
previous entry when the payload never writes the key. -/
theorem lookupRank_applyRankPayload (payload : List ProblemRankData) :
    ∀ (m : List (String × ProblemRankData)) (k : String),
      lookupRank (applyRankPayload m payload) k =
        ((payload.filter (fun r => r.TitleSlug == k)).getLast?).or
          (lookupRank m k) := by
  induction payload with
  | nil => intro m k; simp [applyRankPayload]
  | cons r payload ih =>
    intro m k
    show lookupRank (applyRankPayload (upsertRank m r) payload) k = _
    rw [ih, lookupRank_upsertRank]
    by_cases h : r.TitleSlug = k
    · rw [if_pos h]
      have hf : (r :: payload).filter (fun x => x.TitleSlug == k) =
          r :: payload.filter (fun x => x.TitleSlug == k) := by
        simp [List.filter_cons, h]
      rw [hf, getLast?_cons_or, Option.or_assoc, Option.or_some]
    · simp [List.filter_cons, h]

/-- Folding a sequence of fulfilled payloads: the lookup afterwards
returns the last record with the key across the whole (flattened, in
arrival order) sequence, falling back to the previous entry. -/
theorem lookupRank_foldPayloads (ps : List (List ProblemRankData)) :
    ∀ (m : List (String × ProblemRankData)) (k : String),
      lookupRank (ps.foldl applyRankPayload m) k =
        ((ps.flatten.filter (fun r => r.TitleSlug == k)).getLast?).or
          (lookupRank m k) := by
  induction ps with
  | nil => intro m k; simp
  | cons p ps ih =>
    intro m k
    show lookupRank (ps.foldl applyRankPayload (applyRankPayload m p)) k = _
    rw [ih, lookupRank_applyRankPayload, List.flatten_cons,
      List.filter_append, getLast?_append_or, Option.or_assoc]

/-- The rank-data map after a sequence of fulfilled fetches is the fold
of the payloads over the (empty) initial map. -/
theorem stateAfterFetches_rank (ps : List (List ProblemRankData)) :
    (stateAfterFetches ps).ProblemRankData = ps.foldl applyRankPayload [] := by
  have hgen : ∀ (qs : List (List ProblemRankData)) (s : GlobalState),
      (qs.foldl (fun s p =>
        globalReducer s (GlobalAction.fetchProblemRankDataFulfilled p)) s
        ).ProblemRankData = qs.foldl applyRankPayload s.ProblemRankData := by
    intro qs
    induction qs with
    | nil => intro s; rfl
    | cons p qs ih =>
      intro s
      simp only [List.foldl_cons]
      rw [ih]
      rfl
  exact hgen ps initialGlobalState

/-- A key is in the store exactly when its lookup succeeds. -/
theorem mem_rankKeys_iff_lookup (m : List (String × ProblemRankData))
    (k : String) : k ∈ rankKeys m ↔ lookupRank m k ≠ none := by
  rw [Ne, lookupRank, Option.map_eq_none', List.find?_eq_none]
  simp only [rankKeys, List.mem_map, beq_iff_eq, not_forall]
  constructor
  · rintro ⟨e, he, hk⟩
    exact ⟨e, he, by simp [hk]⟩
  · rintro ⟨e, he, hk⟩
    exact ⟨e, he, by simpa using hk⟩

/-- An upsert adds the written key to the key set and keeps the rest. -/
theorem mem_rankKeys_upsertRank (r : ProblemRankData) (k : String) :
    ∀ m, k ∈ rankKeys (upsertRank m r) ↔
      k = r.TitleSlug ∨ k ∈ rankKeys m := by
  intro m
  induction m with
  | nil => simp [upsertRank, rankKeys]
  | cons e m ih =>
    by_cases he : e.1 = r.TitleSlug
    · have h1 : upsertRank (e :: m) r = (r.TitleSlug, r) :: m := by
        simp [upsertRank, he]
      rw [h1]
      simp only [rankKeys, List.map_cons, List.mem_cons]
      constructor
      · rintro (h | h)
        · exact Or.inl h
        · exact Or.inr (Or.inr h)
      · rintro (h | h | h)
        · exact Or.inl h
        · exact Or.inl (h.trans he)
        · exact Or.inr h
    · have hcond : ¬(e.1 == r.TitleSlug) = true := by simpa using he
      have h1 : upsertRank (e :: m) r = e :: upsertRank m r := by
        simp [upsertRank, hcond]
      rw [h1]
      simp only [rankKeys, List.map_cons, List.mem_cons] at ih ⊢
      tauto

/-- An upsert keeps the key set duplicate-free. -/
theorem nodup_rankKeys_upsertRank (r : ProblemRankData) :
    ∀ m, (rankKeys m).Nodup → (rankKeys (upsertRank m r)).Nodup := by
  intro m
  induction m with
  | nil => intro _; simp [upsertRank, rankKeys]
  | cons e m ih =>
    intro h
    simp only [rankKeys, List.map_cons, List.nodup_cons] at h
    by_cases he : e.1 = r.TitleSlug
    · have h1 : upsertRank (e :: m) r = (r.TitleSlug, r) :: m := by
        simp [upsertRank, he]
      rw [h1]
      simp only [rankKeys, List.map_cons, List.nodup_cons]
      exact ⟨he ▸ h.1, h.2⟩
    · have hcond : ¬(e.1 == r.TitleSlug) = true := by simpa using he
      have h1 : upsertRank (e :: m) r = e :: upsertRank m r := by
        simp [upsertRank, hcond]
      rw [h1]
      simp only [rankKeys, List.map_cons, List.nodup_cons]
      refine ⟨fun hmem => ?_, ih h.2⟩
      rcases (mem_rankKeys_upsertRank r e.1 m).mp hmem with h2 | h2
      · exact he h2
      · exact h.1 h2

/-- Applying a fulfilled payload keeps the key set duplicate-free. -/
theorem nodup_rankKeys_applyRankPayload (payload : List ProblemRankData) :
    ∀ m, (rankKeys m).Nodup → (rankKeys (applyRankPayload m payload)).Nodup := by
  induction payload with
  | nil => intro m h; exact h
  | cons r payload ih =>
    intro m h
    exact ih (upsertRank m r) (nodup_rankKeys_upsertRank r m h)

/-- Any sequence of fulfilled payloads keeps the key set
duplicate-free. -/
theorem nodup_rankKeys_foldPayloads (ps : List (List ProblemRankData)) :
    ∀ m, (rankKeys m).Nodup →
      (rankKeys (ps.foldl applyRankPayload m)).Nodup := by
  induction ps with
  | nil => intro m h; exact h
  | cons p ps ih =>
    intro m h
    exact ih (applyRankPayload m p) (nodup_rankKeys_applyRankPayload p m h)

/-- C10: after any sequence of fulfilled rank-data fetches (each payload
a list of records), the store holds exactly one record per distinct
`TitleSlug` (its key set is duplicate-free), a slug is present exactly
when some fetched payload carried it (fetches upsert and never remove),
and the selector returns the most recently stored record for the slug —
the last record with that slug across the payloads in arrival order —
or `none` for a slug never fetched. -/
theorem rank_store_upsert_semantics (ps : List (List ProblemRankData))
    (slug : String) :
    (rankKeys (stateAfterFetches ps).ProblemRankData).Nodup ∧
    (slug ∈ rankKeys (stateAfterFetches ps).ProblemRankData ↔
      ∃ p, p ∈ ps ∧ ∃ r, r ∈ p ∧ r.TitleSlug = slug) ∧
    selectProblemRankDataByTitleSlug (stateAfterFetches ps) slug =
      (ps.flatten.filter (fun r => r.TitleSlug == slug)).getLast? := by
  have hrank := stateAfterFetches_rank ps
  have hlook : lookupRank (ps.foldl applyRankPayload []) slug =
      (ps.flatten.filter (fun r => r.TitleSlug == slug)).getLast? := by
    rw [lookupRank_foldPayloads]
    simp [lookupRank, Option.or_none]
  refine ⟨?_, ?_, ?_⟩
  · rw [hrank]
    exact nodup_rankKeys_foldPayloads ps [] (by simp [rankKeys])
  · rw [hrank, mem_rankKeys_iff_lookup, hlook, Ne,
      getLast?_eq_none_iff, List.filter_eq_nil_iff]
    simp only [beq_iff_eq, not_forall, List.mem_flatten, not_not]
    constructor
    · rintro ⟨r, ⟨p, hp, hrp⟩, hslug⟩
      exact ⟨p, hp, r, hrp, hslug⟩
    · rintro ⟨p, hp, r, hrp, hslug⟩
      exact ⟨r, ⟨p, hp, hrp⟩, hslug⟩
  · rw [selectProblemRankDataByTitleSlug, hrank, hlook]

end LCExtend
